import Mathlib

/-!
Verification of the SonicNote pipeline: a shallow embedding of
`speaker_diarization_transcription.py` and `summarize.py`, together with
theorems settling the specified properties.

Timestamps (Python floats) are modelled as rationals; speaker labels as
strings. The field `end` of the Python segment dictionaries is a Lean
keyword, so it is named `stop` here.
-/

namespace SonicNote

/-- A diarization detection or speaker turn:
`{"speaker": ..., "start": ..., "end": ...}` in the source. -/
structure Seg where
  speaker : String
  start : ℚ
  stop : ℚ
  deriving DecidableEq, Repr

/-- The sort key comparison used by `sorted(segments, key=lambda x: x["start"])`. -/
def segLE (a b : Seg) : Bool := a.start ≤ b.start

/-- `filter_short_segments`: the loop keeps a segment when
`segment["end"] - segment["start"] >= min_duration`, in order. -/
def filter_short_segments (segs : List Seg) (min_duration : ℚ) : List Seg :=
  match segs with
  | [] => []
  | s :: rest =>
    if s.stop - s.start ≥ min_duration then
      s :: filter_short_segments rest min_duration
    else
      filter_short_segments rest min_duration

/-- The loop body of `merge_segments` after sorting: `last` is the mutable
`merged_segments[-1]`; a same-speaker detection extends its `end` to the
max, a different speaker is appended as a new turn. -/
def mergeLoop (last : Seg) : List Seg → List Seg
  | [] => [last]
  | c :: rest =>
    if c.speaker = last.speaker then
      mergeLoop { last with stop := max last.stop c.stop } rest
    else
      last :: mergeLoop c rest

/-- `merge_segments`: empty input returns `[]`; otherwise sort by `start`
(stably, as Python `sorted`) and run the left-to-right merging pass seeded
with a copy of the first sorted detection. -/
def merge_segments (segs : List Seg) : List Seg :=
  match segs.mergeSort segLE with
  | [] => []
  | first :: rest => mergeLoop first rest

/-- One entry of the result list built by `process_segments`:
`{"speaker": ..., "start": ..., "end": ..., "transcript": ...}`. -/
structure TranscriptionResult where
  speaker : String
  start : ℚ
  stop : ℚ
  transcript : String
  deriving DecidableEq, Repr

/-- `transcribe_segment`, with the whisper collaborator's behaviour on this
call given as `call` (`Except.error e` models `whisper_model.transcribe`
raising an exception whose message is `e`). The temporary wav file is
created (`NamedTemporaryFile` with `delete=False`), the slice is exported
to it (audio container encoding is an out-of-scope collaborator in the
spec and is modelled as returning normally), the collaborator runs inside
`try/except`, and the `finally` block unlinks the file when it exists.
Returns the text together with whether the temporary file still exists
after the call. -/
def transcribe_segment (call : Except String String) : String × Bool :=
  let tmpFileOnDisk := true
  let text :=
    match call with
    | Except.ok t => t
    | Except.error e => "[Transcription error: " ++ e ++ "]"
  let tmpAfter := if tmpFileOnDisk then false else tmpFileOnDisk
  (text, tmpAfter)

/-- The loop of `process_segments`, carrying the index `n` of the next
invocation of the transcription collaborator; `whisper n` is the outcome of
the collaborator on the `n`-th turn's audio slice. -/
def process_segmentsFrom (whisper : Nat → Except String String) :
    Nat → List Seg → List TranscriptionResult
  | _, [] => []
  | n, s :: rest =>
    { speaker := s.speaker, start := s.start, stop := s.stop,
      transcript := (transcribe_segment (whisper n)).1 }
      :: process_segmentsFrom whisper (n + 1) rest

/-- `process_segments`: iterate over the merged segments in order, slice the
audio, transcribe each slice via `transcribe_segment`, and collect one
result per segment. -/
def process_segments (whisper : Nat → Except String String)
    (segs : List Seg) : List TranscriptionResult :=
  process_segmentsFrom whisper 0 segs

/-- Python `f"{x:.1f}"` on a (rational-modelled) timestamp: the value
rounded to one decimal place, rendered with exactly one digit after the
point. -/
def fmt1 (q : ℚ) : String :=
  let n : Int := round (q * 10)
  let sign := if n < 0 then "-" else ""
  sign ++ toString (n.natAbs / 10) ++ "." ++ toString (n.natAbs % 10)

/-- `save_results`: the file content produced by the sequence of
`f.write` calls, modelled as a string accumulator. -/
def save_results (results : List TranscriptionResult) : String :=
  let f := ""
  let f := f ++ "Speaker Diarization and Transcription Results\n"
  let f := f ++ String.mk (List.replicate 50 '=') ++ "\n\n"
  results.foldl (fun acc r =>
    acc ++ ("Speaker " ++ r.speaker ++ " (" ++ fmt1 r.start ++ "s - " ++
            fmt1 r.stop ++ "s):" ++ "\n")
        ++ (r.transcript ++ "\n\n")) f

/-- `format_transcript`: `"No results to display"` on an empty list
(Python `if not results`), otherwise the same header, separator and
per-result blocks accumulated with `+=`. -/
def format_transcript (results : List TranscriptionResult) : String :=
  if results.isEmpty then "No results to display"
  else
    let f := "Speaker Diarization and Transcription Results\n"
    let f := f ++ String.mk (List.replicate 50 '=') ++ "\n\n"
    results.foldl (fun acc r =>
      acc ++ ("Speaker " ++ r.speaker ++ " (" ++ fmt1 r.start ++ "s - " ++
              fmt1 r.stop ++ "s):" ++ "\n")
          ++ (r.transcript ++ "\n\n")) f

/-- Spec-side rendering of one result (§4.4 of the spec): a
`Speaker <id> (<start>s - <end>s):` line with one decimal place, the
transcript text, and a blank line. -/
def resultBlockSpec (r : TranscriptionResult) : String :=
  "Speaker " ++ r.speaker ++ " (" ++ fmt1 r.start ++ "s - " ++
    fmt1 r.stop ++ "s):" ++ "\n" ++ r.transcript ++ "\n\n"

/-! ### The process supervisor (`summarize.py`)

The startup polling loop sleeps 0.2 s per iteration; time is modelled in
poll ticks, one tick per iteration. With the default 15 s deadline the
condition `time.time() < deadline` admits ticks 0 through 74, i.e.
`startup_timeout_s * 5` polls, and the `TimeoutError` is raised exactly
when the deadline is reached. -/

def HOST : String := "127.0.0.1"

def PORT : Nat := 11434

/-- How `subprocess.Popen` is invoked in `__enter__`:
`["ollama", "serve"]` with stdout and stderr sent to `DEVNULL`. -/
structure LaunchConfig where
  cmd : List String
  stdout_suppressed : Bool
  stderr_suppressed : Bool
  deriving DecidableEq, Repr

def ollamaLaunch : LaunchConfig :=
  { cmd := ["ollama", "serve"], stdout_suppressed := true,
    stderr_suppressed := true }

/-- The environment `__enter__` runs against: the outcome of the initial
`is_port_open` probe, and for each poll tick of the startup loop whether
the port is reachable and whether `proc.poll()` reports the child exited. -/
structure ServerWorld where
  initialProbe : Bool
  portOpenAt : Nat → Bool
  exitedAt : Nat → Bool

/-- Outcome of acquisition: reuse of a running server, successful startup,
or one of the two failures raised from the startup loop. -/
inductive AcqResult
  | reused
  | ready
  | exitedEarly
  | timedOut
  deriving DecidableEq, Repr

/-- The `while time.time() < deadline` polling loop: at tick `n`, first
check the port, then `proc.poll()`, else sleep 0.2 s and continue; fuel
exhaustion is the deadline, raising `TimeoutError`. Also returns the
tick reached. -/
def pollLoop (w : ServerWorld) : Nat → Nat → AcqResult × Nat
  | 0, n => (AcqResult.timedOut, n)
  | fuel + 1, n =>
    if w.portOpenAt n then (AcqResult.ready, n)
    else if w.exitedAt n then (AcqResult.exitedEarly, n)
    else pollLoop w fuel (n + 1)

/-- Number of poll iterations the loop can run before the deadline:
one per 0.2 s sleep. -/
def startup_fuel (startup_timeout_s : Nat) : Nat := startup_timeout_s * 5

/-- Result of `__enter__` beyond the state: what happened, whether a child
process was launched (and with what configuration), and how many poll
ticks elapsed. -/
structure EnterOut where
  result : AcqResult
  launched : Option LaunchConfig
  pollsDone : Nat
  deriving DecidableEq, Repr

/-- The supervisor object: `OllamaServer.__init__` fields. `proc` is the
`subprocess.Popen` handle (`None` initially), modelled by its pid. -/
structure OllamaServer where
  host : String
  port : Nat
  startup_timeout_s : Nat
  proc : Option Nat
  started_by_me : Bool
  deriving DecidableEq, Repr

/-- `OllamaServer.__init__(host, port, startup_timeout_s)`. -/
def OllamaServer.mkServer (host : String) (port : Nat)
    (startup_timeout_s : Nat) : OllamaServer :=
  { host := host, port := port, startup_timeout_s := startup_timeout_s,
    proc := none, started_by_me := false }

/-- `OllamaServer.__enter__`: if the initial probe finds the port open the
server is reused and the state is unchanged; otherwise the child is
launched (`newPid`), `started_by_me` is set, and the polling loop decides
the outcome. -/
def OllamaServer.enter (s : OllamaServer) (w : ServerWorld) (newPid : Nat) :
    OllamaServer × EnterOut :=
  if w.initialProbe then
    (s, { result := AcqResult.reused, launched := none, pollsDone := 0 })
  else
    let p := pollLoop w (startup_fuel s.startup_timeout_s) 0
    ({ s with proc := some newPid, started_by_me := true },
     { result := p.1, launched := some ollamaLaunch, pollsDone := p.2 })

/-- Whether the body of the `with OllamaServer():` block runs: only when
`__enter__` returned normally (reuse or ready); the two failure outcomes
raise and the workload never starts. -/
def workloadRuns (s : OllamaServer) (w : ServerWorld) (newPid : Nat) : Bool :=
  match (s.enter w newPid).2.result with
  | AcqResult.reused => true
  | AcqResult.ready => true
  | AcqResult.exitedEarly => false
  | AcqResult.timedOut => false

/-- How the child reacts to shutdown signals: whether it exits within the
5 s `wait` after the graceful-stop signal, and whether it exits within the
5 s `wait` after `terminate()`. `kill()` always succeeds. -/
structure ChildBehavior where
  exitsOnInterrupt : Bool
  exitsOnTerminate : Bool
  deriving DecidableEq, Repr

/-- The three escalation actions of `__exit__`. -/
inductive StopSignal
  | interrupt
  | term
  | kill
  deriving DecidableEq, Repr

/-- The nested `try/except` escalation of `__exit__` once it acts: send the
graceful-stop signal and wait 5 s; on failure `terminate()` and wait 5 s;
on failure `kill()`. Returns the signals sent, in order. -/
def shutdownSignals (c : ChildBehavior) : List StopSignal :=
  if c.exitsOnInterrupt then [StopSignal.interrupt]
  else if c.exitsOnTerminate then [StopSignal.interrupt, StopSignal.term]
  else [StopSignal.interrupt, StopSignal.term, StopSignal.kill]

/-- `OllamaServer.__exit__`: returns immediately (no signal sent) unless
`self.started_by_me and self.proc` holds; otherwise runs the escalation. -/
def OllamaServer.exitServer (s : OllamaServer) (c : ChildBehavior) :
    List StopSignal :=
  if s.started_by_me && s.proc.isSome then shutdownSignals c else []

/-! ### Shared helper lemmas -/

theorem segLE_trans : ∀ a b c : Seg, segLE a b → segLE b c → segLE a c := by
  intro a b c hab hbc
  simp only [segLE, decide_eq_true_eq] at *
  exact le_trans hab hbc

theorem segLE_total : ∀ a b : Seg, segLE a b || segLE b a := by
  intro a b
  simp only [segLE, Bool.or_eq_true, decide_eq_true_eq]
  exact le_total a.start b.start

theorem filter_short_eq_filter (segs : List Seg) (d : ℚ) :
    filter_short_segments segs d =
      segs.filter (fun s => d ≤ s.stop - s.start) := by
  induction segs with
  | nil => rfl
  | cons s rest ih =>
    by_cases h : d ≤ s.stop - s.start
    · simp [filter_short_segments, List.filter_cons, ge_iff_le, h, ih]
    · simp [filter_short_segments, List.filter_cons, ge_iff_le, h, ih]

theorem mergeSort_pair (d1 d2 : Seg) (h : d1.start ≤ d2.start) :
    [d1, d2].mergeSort segLE = [d1, d2] :=
  List.mergeSort_of_sorted
    (by simp [List.pairwise_cons, segLE, decide_eq_true_eq, h])

/-! ### Claim theorems -/

/-- C6: `filter_short_segments` returns exactly the subsequence of
detections with `end - start >= threshold`, in the original order; a
detection whose duration equals the threshold exactly is kept; the input
is not mutated (the function builds a new list). -/
theorem filter_short_segments_spec (segs : List Seg) (d : ℚ) :
    filter_short_segments segs d =
        segs.filter (fun s => d ≤ s.stop - s.start) ∧
    (filter_short_segments segs d).Sublist segs ∧
    (∀ s, s ∈ segs → s.stop - s.start = d →
        s ∈ filter_short_segments segs d) ∧
    (∀ s, s ∈ filter_short_segments segs d → d ≤ s.stop - s.start) := by
  have he := filter_short_eq_filter segs d
  refine ⟨he, ?_, ?_, ?_⟩
  · rw [he]; exact List.filter_sublist segs
  · intro s hs hd
    rw [he, List.mem_filter]
    exact ⟨hs, by simp [hd]⟩
  · intro s hs
    rw [he, List.mem_filter] at hs
    simpa using hs.2

/-- Witness for C6: a detection whose duration is exactly the threshold is
kept by the filter. -/
theorem filter_short_segments_spec_witness :
    (⟨"A", 0, 1⟩ : Seg) ∈ filter_short_segments [⟨"A", 0, 1⟩] 1 :=
  (filter_short_segments_spec [⟨"A", 0, 1⟩] 1).2.2.1 ⟨"A", 0, 1⟩
    (by simp) (by norm_num)

/-- C8: every invocation of `transcribe_segment` removes its temporary
file before returning, on the normal path and on the path where the
transcription collaborator raises. -/
theorem transcribe_segment_tmpfile (call : Except String String) :
    (transcribe_segment call).2 = false := by
  cases call <;> rfl

/-- C1: `merge_segments` maps empty input to empty output; two
same-speaker detections adjacent after sorting are merged into one turn
ending at the max of the two ends, regardless of the time gap; a
different-speaker detection starts a new turn; presorting the input does
not change the result (the function sorts first); and the documented
example `[(A,0,2),(A,3,5)]` yields the single turn `(A,0,5)`. -/
theorem merge_segments_spec :
    merge_segments [] = [] ∧
    (∀ d1 d2 : Seg, d1.speaker = d2.speaker → d1.start ≤ d2.start →
      merge_segments [d1, d2] =
        [{ speaker := d1.speaker, start := d1.start,
           stop := max d1.stop d2.stop }]) ∧
    (∀ d1 d2 : Seg, d1.speaker ≠ d2.speaker → d1.start ≤ d2.start →
      merge_segments [d1, d2] = [d1, d2]) ∧
    (∀ segs : List Seg,
      merge_segments (segs.mergeSort segLE) = merge_segments segs) ∧
    merge_segments [⟨"A", 0, 2⟩, ⟨"A", 3, 5⟩] = [⟨"A", 0, 5⟩] := by
  refine ⟨by simp [merge_segments], ?_, ?_, ?_, ?_⟩
  · intro d1 d2 hspk hle
    have e : [d1, d2].mergeSort segLE = [d1, d2] := mergeSort_pair d1 d2 hle
    simp only [merge_segments, e, mergeLoop, hspk.symm, if_pos rfl]
    rfl
  · intro d1 d2 hspk hle
    have e : [d1, d2].mergeSort segLE = [d1, d2] := mergeSort_pair d1 d2 hle
    simp only [merge_segments, e, mergeLoop]
    rw [if_neg (fun h => hspk h.symm)]
  · intro segs
    have e : (segs.mergeSort segLE).mergeSort segLE = segs.mergeSort segLE :=
      List.mergeSort_of_sorted
        (List.sorted_mergeSort segLE_trans segLE_total segs)
    simp only [merge_segments, e]
  · have e : [(⟨"A", 0, 2⟩ : Seg), ⟨"A", 3, 5⟩].mergeSort segLE =
        [⟨"A", 0, 2⟩, ⟨"A", 3, 5⟩] :=
      mergeSort_pair _ _ (by norm_num)
    simp only [merge_segments, e, mergeLoop, if_pos rfl]
    norm_num

/-- Witness for C1: two same-speaker detections separated by a large gap
are still merged into a single turn. -/
theorem merge_segments_spec_witness :
    merge_segments [⟨"B", 0, 2⟩, ⟨"B", 100, 101⟩] = [⟨"B", 0, 101⟩] := by
  have h := merge_segments_spec.2.1 ⟨"B", 0, 2⟩ ⟨"B", 100, 101⟩ rfl
    (by norm_num)
  rw [h]
  norm_num

theorem process_segmentsFrom_length (whisper : Nat → Except String String)
    (n : Nat) (segs : List Seg) :
    (process_segmentsFrom whisper n segs).length = segs.length := by
  induction segs generalizing n with
  | nil => rfl
  | cons s rest ih => simp [process_segmentsFrom, ih]

theorem process_segmentsFrom_getElem (whisper : Nat → Except String String)
    (n j : Nat) (segs : List Seg) :
    (process_segmentsFrom whisper n segs)[j]? =
      (segs[j]?).map (fun s =>
        { speaker := s.speaker, start := s.start, stop := s.stop,
          transcript := (transcribe_segment (whisper (n + j))).1 }) := by
  induction segs generalizing n j with
  | nil => simp [process_segmentsFrom]
  | cons s rest ih =>
    cases j with
    | zero => simp [process_segmentsFrom]
    | succ k =>
      simp only [process_segmentsFrom, List.getElem?_cons_succ, ih]
      have : n + (k + 1) = n + 1 + k := by omega
      rw [this]

/-- C3: if the transcription collaborator raises only on turn `i`, then
`process_segments` still yields one result per turn in order; result `i`
carries the sentinel `[Transcription error: <cause>]`, every other result
carries that turn's normal text, each result keeps its turn's speaker and
bounds, and no exception escapes (the function is total). -/
theorem process_segments_fault_containment
    (whisper : Nat → Except String String) (segs : List Seg) (i : Nat)
    (c : String) (normal : Nat → String)
    (hfail : whisper i = Except.error c)
    (hok : ∀ j, j ≠ i → whisper j = Except.ok (normal j)) :
    (process_segments whisper segs).length = segs.length ∧
    (i < segs.length →
      ((process_segments whisper segs)[i]?).map TranscriptionResult.transcript
        = some ("[Transcription error: " ++ c ++ "]")) ∧
    (∀ j, j < segs.length → j ≠ i →
      ((process_segments whisper segs)[j]?).map TranscriptionResult.transcript
        = some (normal j)) ∧
    (∀ j : Nat, ((process_segments whisper segs)[j]?).map
        (fun r : TranscriptionResult => (r.speaker, r.start, r.stop)) =
      (segs[j]?).map (fun s : Seg => (s.speaker, s.start, s.stop))) := by
  refine ⟨process_segmentsFrom_length whisper 0 segs, ?_, ?_, ?_⟩
  · intro hi
    rw [process_segments, process_segmentsFrom_getElem, Nat.zero_add,
      List.getElem?_eq_getElem hi]
    simp [hfail, transcribe_segment]
  · intro j hj hne
    rw [process_segments, process_segmentsFrom_getElem, Nat.zero_add,
      List.getElem?_eq_getElem hj]
    simp [hok j hne, transcribe_segment]
  · intro j
    rw [process_segments, process_segmentsFrom_getElem, Nat.zero_add]
    cases segs[j]? with
    | none => rfl
    | some s => rfl

/-- Witness for C3: with three turns and a collaborator failing only on
the second, the second result carries the sentinel text and the others the
normal text. -/
theorem process_segments_fault_containment_witness :
    ((process_segments
          (fun n => if n = 1 then Except.error "boom" else Except.ok "fine")
          [⟨"A", 0, 2⟩, ⟨"A", 3, 5⟩, ⟨"B", 6, 8⟩])[1]?).map
        TranscriptionResult.transcript =
      some "[Transcription error: boom]" ∧
    ((process_segments
          (fun n => if n = 1 then Except.error "boom" else Except.ok "fine")
          [⟨"A", 0, 2⟩, ⟨"A", 3, 5⟩, ⟨"B", 6, 8⟩])[2]?).map
        TranscriptionResult.transcript =
      some "fine" := by
  have h := process_segments_fault_containment
    (fun n => if n = 1 then Except.error "boom" else Except.ok "fine")
    [⟨"A", 0, 2⟩, ⟨"A", 3, 5⟩, ⟨"B", 6, 8⟩] 1 "boom" (fun _ => "fine")
    rfl (fun j hj => by simp [hj])
  exact ⟨h.2.1 (by norm_num), h.2.2.1 2 (by norm_num) (by norm_num)⟩

/-- C4: shutdown escalation in `__exit__` sends each signal at most once,
in the fixed order graceful-stop, terminate, kill; a later signal is sent
only if every earlier one failed to end the child; the sequence is always
finite (release never hangs); and the mock child that ignores the graceful
stop but honors terminate sees exactly the two signals, never kill. -/
theorem shutdown_escalation (c : ChildBehavior) :
    (shutdownSignals c).Nodup ∧
    shutdownSignals c <+:
      [StopSignal.interrupt, StopSignal.term, StopSignal.kill] ∧
    (StopSignal.term ∈ shutdownSignals c → c.exitsOnInterrupt = false) ∧
    (StopSignal.kill ∈ shutdownSignals c →
      c.exitsOnInterrupt = false ∧ c.exitsOnTerminate = false) ∧
    (shutdownSignals c).length ≤ 3 ∧
    shutdownSignals ⟨false, true⟩ = [StopSignal.interrupt, StopSignal.term] ∧
    StopSignal.kill ∉ shutdownSignals ⟨false, true⟩ := by
  obtain ⟨i, t⟩ := c
  cases i <;> cases t <;> decide

/-- Witness for C4: the mock child reaching `Stopped` after exactly the
graceful-stop and terminate attempts. -/
theorem shutdown_escalation_witness :
    shutdownSignals ⟨false, true⟩ = [StopSignal.interrupt, StopSignal.term] ∧
    StopSignal.kill ∉ shutdownSignals ⟨false, true⟩ :=
  ⟨(shutdown_escalation ⟨false, true⟩).2.2.2.2.2.1,
   (shutdown_escalation ⟨false, true⟩).2.2.2.2.2.2⟩

/-- The invariant of §3 of the spec: `started_by_us` implies a live child
handle. -/
def serverInvariant (s : OllamaServer) : Prop :=
  s.started_by_me = true → s.proc ≠ none

/-- C5: the supervisor state satisfies `started_by_me → proc ≠ none` after
construction and after `__enter__`; `__exit__` sends signals only when
both hold; and when the initial probe finds the port open, `__enter__`
changes nothing, launches nothing, leaves `started_by_me` false, and
`__exit__` performs no action. -/
theorem supervisor_state_invariant (host : String) (port : Nat) (t : Nat)
    (w : ServerWorld) (newPid : Nat) (c : ChildBehavior) :
    serverInvariant (OllamaServer.mkServer host port t) ∧
    (∀ s : OllamaServer, serverInvariant s →
      serverInvariant ((s.enter w newPid).1)) ∧
    (∀ s : OllamaServer, s.exitServer c ≠ [] →
      s.started_by_me = true ∧ s.proc ≠ none) ∧
    (w.initialProbe = true →
      ((OllamaServer.mkServer host port t).enter w newPid).1 =
          OllamaServer.mkServer host port t ∧
      ((OllamaServer.mkServer host port t).enter w newPid).2.launched =
          none ∧
      ((OllamaServer.mkServer host port t).enter w newPid).1.started_by_me =
          false ∧
      ((OllamaServer.mkServer host port t).enter w newPid).1.exitServer c =
          []) := by
  refine ⟨?_, ?_, ?_, ?_⟩
  · intro h
    simp [OllamaServer.mkServer] at h
  · intro s hinv
    by_cases hw : w.initialProbe = true
    · simpa only [OllamaServer.enter, if_pos hw] using hinv
    · simp only [OllamaServer.enter, if_neg hw]
      intro _
      simp
  · intro s h
    rw [OllamaServer.exitServer] at h
    by_cases hc : s.started_by_me && s.proc.isSome
    · have hc' : s.started_by_me = true ∧ s.proc.isSome = true := by
        simpa using hc
      refine ⟨hc'.1, ?_⟩
      have := hc'.2
      simp [Option.isSome_iff_exists] at this
      obtain ⟨p, hp⟩ := this
      simp [hp]
    · rw [if_neg (by simpa using hc)] at h
      exact absurd rfl h
  · intro hw
    simp [OllamaServer.enter, if_pos hw, OllamaServer.exitServer,
      OllamaServer.mkServer]

/-- Witness for C5: with the port already open, a freshly constructed
supervisor is returned unchanged by `__enter__` and its `__exit__` sends
no signal. -/
theorem supervisor_state_invariant_witness :
    ((OllamaServer.mkServer HOST PORT 15).enter
        ⟨true, fun _ => true, fun _ => false⟩ 42).1.started_by_me = false ∧
    ((OllamaServer.mkServer HOST PORT 15).enter
        ⟨true, fun _ => true, fun _ => false⟩ 42).1.exitServer
      ⟨true, true⟩ = [] := by
  have h := supervisor_state_invariant HOST PORT 15
    ⟨true, fun _ => true, fun _ => false⟩ 42 ⟨true, true⟩
  exact ⟨(h.2.2.2 rfl).2.2.1, (h.2.2.2 rfl).2.2.2⟩

theorem pollLoop_timedOut (w : ServerWorld) (fuel : Nat) :
    ∀ n : Nat,
      (∀ k, k < fuel →
        w.portOpenAt (n + k) = false ∧ w.exitedAt (n + k) = false) →
      pollLoop w fuel n = (AcqResult.timedOut, n + fuel) := by
  induction fuel with
  | zero => intro n _; simp [pollLoop]
  | succ f ih =>
    intro n h
    have h0 := h 0 (Nat.succ_pos f)
    rw [Nat.add_zero] at h0
    rw [pollLoop, if_neg (by simp [h0.1]), if_neg (by simp [h0.2])]
    have := ih (n + 1) (fun k hk => by
      have hx := h (k + 1) (Nat.succ_lt_succ hk)
      rwa [show n + (k + 1) = n + 1 + k by omega] at hx)
    rw [this]
    congr 1
    omega

theorem pollLoop_ready (w : ServerWorld) (m : Nat) :
    ∀ fuel n : Nat, m < fuel → w.portOpenAt (n + m) = true →
      (∀ k, k < m →
        w.portOpenAt (n + k) = false ∧ w.exitedAt (n + k) = false) →
      pollLoop w fuel n = (AcqResult.ready, n + m) := by
  induction m with
  | zero =>
    intro fuel n hm hopen _
    cases fuel with
    | zero => omega
    | succ f =>
      rw [Nat.add_zero] at hopen
      rw [pollLoop, if_pos (by simp [hopen])]
      simp
  | succ j ih =>
    intro fuel n hm hopen hbefore
    cases fuel with
    | zero => omega
    | succ f =>
      have h0 := hbefore 0 (Nat.succ_pos j)
      rw [Nat.add_zero] at h0
      rw [pollLoop, if_neg (by simp [h0.1]), if_neg (by simp [h0.2])]
      have := ih f (n + 1) (by omega)
        (by rwa [show n + 1 + j = n + (j + 1) by omega])
        (fun k hk => by
          have hx := hbefore (k + 1) (Nat.succ_lt_succ hk)
          rwa [show n + (k + 1) = n + 1 + k by omega] at hx)
      rw [this]
      congr 1
      omega

theorem pollLoop_exitedEarly (w : ServerWorld) (m : Nat) :
    ∀ fuel n : Nat, m < fuel → w.portOpenAt (n + m) = false →
      w.exitedAt (n + m) = true →
      (∀ k, k < m →
        w.portOpenAt (n + k) = false ∧ w.exitedAt (n + k) = false) →
      pollLoop w fuel n = (AcqResult.exitedEarly, n + m) := by
  induction m with
  | zero =>
    intro fuel n hm hopen hexit _
    cases fuel with
    | zero => omega
    | succ f =>
      rw [Nat.add_zero] at hopen hexit
      rw [pollLoop, if_neg (by simp [hopen]), if_pos (by simp [hexit])]
      simp
  | succ j ih =>
    intro fuel n hm hopen hexit hbefore
    cases fuel with
    | zero => omega
    | succ f =>
      have h0 := hbefore 0 (Nat.succ_pos j)
      rw [Nat.add_zero] at h0
      rw [pollLoop, if_neg (by simp [h0.1]), if_neg (by simp [h0.2])]
      have := ih f (n + 1) (by omega)
        (by rwa [show n + 1 + j = n + (j + 1) by omega])
        (by rwa [show n + 1 + j = n + (j + 1) by omega])
        (fun k hk => by
          have hx := hbefore (k + 1) (Nat.succ_lt_succ hk)
          rwa [show n + (k + 1) = n + 1 + k by omega] at hx)
      rw [this]
      congr 1
      omega

/-- C2: with the initial probe failed and the default 15 s deadline,
`__enter__` launches the child with output suppressed and polls every
200 ms (75 polls before the deadline); if the port opens first the
acquisition is ready and the workload runs; if the child has exited first
the acquisition fails early; if neither happens for the whole window the
acquisition fails with a timeout exactly at the deadline (all 75 polls
spent), and a failed acquisition means the workload never runs. -/
theorem ollama_enter_spec (w : ServerWorld) (newPid : Nat)
    (hprobe : w.initialProbe = false) :
    (((OllamaServer.mkServer HOST PORT 15).enter w newPid).2.launched =
        some ollamaLaunch ∧
      ollamaLaunch.stdout_suppressed = true ∧
      ollamaLaunch.stderr_suppressed = true) ∧
    ((∀ k, k < 75 →
        w.portOpenAt k = false ∧ w.exitedAt k = false) →
      ((OllamaServer.mkServer HOST PORT 15).enter w newPid).2.result =
          AcqResult.timedOut ∧
      ((OllamaServer.mkServer HOST PORT 15).enter w newPid).2.pollsDone =
          75) ∧
    (∀ m, m < 75 → w.portOpenAt m = true →
      (∀ k, k < m → w.portOpenAt k = false ∧ w.exitedAt k = false) →
      ((OllamaServer.mkServer HOST PORT 15).enter w newPid).2.result =
          AcqResult.ready ∧
      workloadRuns (OllamaServer.mkServer HOST PORT 15) w newPid = true) ∧
    (∀ m, m < 75 → w.portOpenAt m = false → w.exitedAt m = true →
      (∀ k, k < m → w.portOpenAt k = false ∧ w.exitedAt k = false) →
      ((OllamaServer.mkServer HOST PORT 15).enter w newPid).2.result =
          AcqResult.exitedEarly) ∧
    (((OllamaServer.mkServer HOST PORT 15).enter w newPid).2.result =
          AcqResult.exitedEarly ∨
      ((OllamaServer.mkServer HOST PORT 15).enter w newPid).2.result =
          AcqResult.timedOut →
      workloadRuns (OllamaServer.mkServer HOST PORT 15) w newPid = false) := by
  have hfuel : startup_fuel (OllamaServer.mkServer HOST PORT 15).startup_timeout_s = 75 := rfl
  refine ⟨?_, ?_, ?_, ?_, ?_⟩
  · refine ⟨by simp [OllamaServer.enter, hprobe], rfl, rfl⟩
  · intro h
    have hp := pollLoop_timedOut w 75 0 (fun k hk => by
      simpa using h k hk)
    simp [OllamaServer.enter, hprobe, hfuel, hp]
  · intro m hm hopen hbefore
    have hp := pollLoop_ready w m 75 0 hm (by simpa using hopen)
      (fun k hk => by simpa using hbefore k hk)
    constructor
    · simp [OllamaServer.enter, hprobe, hfuel, hp]
    · simp [workloadRuns, OllamaServer.enter, hprobe, hfuel, hp]
  · intro m hm hopen hexit hbefore
    have hp := pollLoop_exitedEarly w m 75 0 hm (by simpa using hopen)
      (by simpa using hexit) (fun k hk => by simpa using hbefore k hk)
    simp [OllamaServer.enter, hprobe, hfuel, hp]
  · intro h
    rcases h with h | h <;>
      simp only [workloadRuns] at * <;> rw [h]

/-- Witness for C2: in a world where the port never opens and the child
never exits, acquisition times out after exactly 75 polls (the 15 s
deadline at 200 ms per poll) and the workload does not run. -/
theorem ollama_enter_spec_witness :
    ((OllamaServer.mkServer HOST PORT 15).enter
        ⟨false, fun _ => false, fun _ => false⟩ 7).2.result =
      AcqResult.timedOut ∧
    ((OllamaServer.mkServer HOST PORT 15).enter
        ⟨false, fun _ => false, fun _ => false⟩ 7).2.pollsDone = 75 ∧
    workloadRuns (OllamaServer.mkServer HOST PORT 15)
      ⟨false, fun _ => false, fun _ => false⟩ 7 = false := by
  have h := ollama_enter_spec ⟨false, fun _ => false, fun _ => false⟩ 7 rfl
  have ht := h.2.1 (fun k _ => ⟨rfl, rfl⟩)
  exact ⟨ht.1, ht.2, h.2.2.2.2 (Or.inr ht.1)⟩

/-- The spec-side report body (§4.4): the per-result blocks concatenated
in order. -/
def renderBlocks : List TranscriptionResult → String
  | [] => ""
  | r :: rest => resultBlockSpec r ++ renderBlocks rest

theorem foldl_append_renderBlocks :
    ∀ (l : List TranscriptionResult) (f : String),
      l.foldl (fun acc r =>
        acc ++ ("Speaker " ++ r.speaker ++ " (" ++ fmt1 r.start ++ "s - " ++
                fmt1 r.stop ++ "s):" ++ "\n")
            ++ (r.transcript ++ "\n\n")) f = f ++ renderBlocks l := by
  intro l
  induction l with
  | nil => intro f; simp [renderBlocks]
  | cons r rest ih =>
    intro f
    rw [List.foldl_cons, ih]
    simp [renderBlocks, resultBlockSpec, String.append_assoc]

theorem save_results_renders (results : List TranscriptionResult) :
    save_results results =
      "Speaker Diarization and Transcription Results\n" ++
      (String.mk (List.replicate 50 '=') ++ "\n\n") ++
      renderBlocks results := by
  rw [save_results]
  rw [foldl_append_renderBlocks]
  simp [String.append_assoc]

/-- C9: the file written by `save_results` is exactly the fixed header
line, a separator line of 50 `=` characters, a blank line, and for each
result in order a `Speaker <id> (<start>s - <end>s):` line (one decimal
place) followed by the transcript and a blank line; `save_results` is a
pure function of its input, so identical inputs give byte-identical
files. -/
theorem save_results_spec (results : List TranscriptionResult) :
    save_results results =
      "Speaker Diarization and Transcription Results\n" ++
      (String.mk (List.replicate 50 '=') ++ "\n\n") ++
      renderBlocks results :=
  save_results_renders results

/-- C10: on every non-empty input `save_results` and `format_transcript`
produce the same characters; on the empty input `save_results` produces
just the header and separator while `format_transcript` returns
`"No results to display"`, so they diverge exactly there. -/
theorem save_format_equivalence (results : List TranscriptionResult) :
    (results ≠ [] → save_results results = format_transcript results) ∧
    format_transcript [] = "No results to display" ∧
    save_results ([] : List TranscriptionResult) =
      "Speaker Diarization and Transcription Results\n" ++
      (String.mk (List.replicate 50 '=') ++ "\n\n") ∧
    save_results ([] : List TranscriptionResult) ≠ format_transcript [] := by
  refine ⟨?_, rfl, ?_, ?_⟩
  · intro hne
    cases results with
    | nil => exact absurd rfl hne
    | cons r rest =>
      have hni : ¬((r :: rest).isEmpty = true) := by simp
      rw [save_results, format_transcript, if_neg hni]
      rw [foldl_append_renderBlocks, foldl_append_renderBlocks]
      simp [String.append_assoc]
  · rw [save_results_renders]
    simp [renderBlocks]
  · rw [save_results_renders]
    simp only [renderBlocks]
    rw [format_transcript]
    simp only [List.isEmpty_nil, if_pos rfl]
    decide

/-- Witness for C10: on a concrete non-empty input the two renderings
agree. -/
theorem save_format_equivalence_witness :
    save_results [⟨"SPEAKER_00", 0, 2, " hi"⟩] =
      format_transcript [⟨"SPEAKER_00", 0, 2, " hi"⟩] :=
  (save_format_equivalence [⟨"SPEAKER_00", 0, 2, " hi"⟩]).1 (by simp)

theorem mergeLoop_head_eq :
    ∀ (l : List Seg) (acc : Seg), ∃ z rest,
      mergeLoop acc l = z :: rest ∧ z.speaker = acc.speaker ∧
      z.start = acc.start := by
  intro l
  induction l with
  | nil => intro acc; exact ⟨acc, [], rfl, rfl, rfl⟩
  | cons c t ih =>
    intro acc
    by_cases h : c.speaker = acc.speaker
    · obtain ⟨z, rest, he, hs, hst⟩ := ih { acc with stop := max acc.stop c.stop }
      exact ⟨z, rest, by rw [mergeLoop, if_pos h]; exact he, hs, hst⟩
    · exact ⟨acc, mergeLoop c t, by rw [mergeLoop, if_neg h], rfl, rfl⟩

theorem mergeLoop_starts_sublist :
    ∀ (l : List Seg) (acc : Seg),
      ((mergeLoop acc l).map Seg.start).Sublist ((acc :: l).map Seg.start) := by
  intro l
  induction l with
  | nil => intro acc; simp [mergeLoop]
  | cons c t ih =>
    intro acc
    by_cases h : c.speaker = acc.speaker
    · rw [mergeLoop, if_pos h]
      have hx := ih { acc with stop := max acc.stop c.stop }
      refine hx.trans ?_
      simp only [List.map_cons]
      exact List.Sublist.cons₂ _ (List.sublist_cons_self _ _)
    · rw [mergeLoop, if_neg h]
      simp only [List.map_cons]
      exact List.Sublist.cons₂ _ (ih c)

theorem pairwise_segLE_iff (l : List Seg) :
    l.Pairwise (fun a b => segLE a b) ↔
      (l.map Seg.start).Pairwise (fun a b : ℚ => a ≤ b) := by
  rw [List.pairwise_map]
  constructor
  · exact fun h => h.imp (by
      intro a b hab
      simpa [segLE, decide_eq_true_eq] using hab)
  · exact fun h => h.imp (by
      intro a b hab
      simpa [segLE, decide_eq_true_eq] using hab)

theorem mergeLoop_chain_ne :
    ∀ (l : List Seg) (acc : Seg),
      (mergeLoop acc l).Chain' (fun a b => a.speaker ≠ b.speaker) := by
  intro l
  induction l with
  | nil => intro acc; simp [mergeLoop]
  | cons c t ih =>
    intro acc
    by_cases h : c.speaker = acc.speaker
    · rw [mergeLoop, if_pos h]
      exact ih _
    · rw [mergeLoop, if_neg h]
      obtain ⟨z, rest, he, hs, _⟩ := mergeLoop_head_eq t c
      rw [he, List.chain'_cons]
      refine ⟨?_, ?_⟩
      · rw [hs]
        exact fun hh => h hh.symm
      · rw [← he]
        exact ih c

theorem mergeLoop_eq_self :
    ∀ (l : List Seg) (acc : Seg),
      (acc :: l).Chain' (fun a b => a.speaker ≠ b.speaker) →
      mergeLoop acc l = acc :: l := by
  intro l
  induction l with
  | nil => intro acc _; rfl
  | cons c t ih =>
    intro acc h
    rw [List.chain'_cons] at h
    rw [mergeLoop, if_neg (fun e => h.1 e.symm), ih c h.2]

theorem merge_segments_sorted_chain (segs : List Seg) :
    (merge_segments segs).Pairwise (fun a b => segLE a b) ∧
    (merge_segments segs).Chain' (fun a b => a.speaker ≠ b.speaker) := by
  cases hs : segs.mergeSort segLE with
  | nil => simp [merge_segments, hs]
  | cons h t =>
    have hsorted : (h :: t).Pairwise (fun a b => segLE a b) := by
      rw [← hs]
      exact List.sorted_mergeSort segLE_trans segLE_total segs
    have he : merge_segments segs = mergeLoop h t := by
      simp [merge_segments, hs]
    rw [he]
    refine ⟨?_, mergeLoop_chain_ne t h⟩
    have hmap : ((h :: t).map Seg.start).Pairwise (fun a b : ℚ => a ≤ b) :=
      (pairwise_segLE_iff _).mp hsorted
    exact (pairwise_segLE_iff _).mpr
      (List.Pairwise.sublist (mergeLoop_starts_sublist t h) hmap)

/-- C7: `merge_segments` is idempotent — its output, fed back in as
detections, is a fixed point: the output is already sorted by start, so
the second sort is the identity, and adjacent output turns always have
distinct speakers, so the second merging pass copies every turn
unchanged. -/
theorem merge_segments_idempotent (segs : List Seg) :
    merge_segments (merge_segments segs) = merge_segments segs := by
  obtain ⟨hsort, hchain⟩ := merge_segments_sorted_chain segs
  have hsid : (merge_segments segs).mergeSort segLE = merge_segments segs :=
    List.mergeSort_of_sorted hsort
  cases ho : merge_segments segs with
  | nil => simp [merge_segments]
  | cons h t =>
    rw [ho] at hsid hchain
    have he : merge_segments (h :: t) = mergeLoop h t := by
      simp only [merge_segments, hsid]
    rw [he]
    exact mergeLoop_eq_self t h hchain

end SonicNote
